import Mathlib

/-!
Shallow embedding of the LocalDatabase query layer (an IndexedDB wrapper):
schema descriptors, the predicate parser inside `LocalDatabase.select`, the
index range-scan semantics, the stringify/intersect/difference result merger,
and the `init` / `add` / `delete` operations, translated from the source
(`ColumnSchema`, `TableSchema`, `DatabaseSchema`, `LocalDatabase`).
-/

set_option maxHeartbeats 1000000

/-- Field values stored in rows and used in queries.  The repository's
examples use numbers and strings, which are the valid IndexedDB key types
this development models (IndexedDB orders every number before every string). -/
inductive Value
  | int (n : Int)
  | str (s : String)
deriving DecidableEq

deriving instance DecidableEq for Except

/-- A row is a JavaScript object: an ordered association list from field
names to values (keys unique by construction in JS object literals). -/
abbrev Row := List (String × Value)

/-- Property lookup `row[col]` on a row object. -/
def rowField (r : Row) (col : String) : Option Value :=
  (r.find? (fun p => p.1 = col)).map (fun p => p.2)

/-- Result of `JSON.stringify` applied to a row.  `JSON.stringify` is
injective on rows in canonical field order and `JSON.parse` inverts it, so
the serialized string is represented by the row it encodes; two stringified
rows are equal exactly when the rows have equal content. -/
structure JsonString where
  val : Row
deriving DecidableEq

/-- Column descriptor (`ColumnSchema`): a named secondary index with options. -/
structure ColumnSchema where
  name : String
  unique : Bool
  multiEntry : Bool
deriving DecidableEq

/-- Table descriptor (`TableSchema`): name, key column and the other
columns, each of which becomes a secondary index. -/
structure TableSchema where
  name : String
  keyColumn : ColumnSchema
  otherColumns : List ColumnSchema
  autoIncrement : Bool
deriving DecidableEq

/-- Database descriptor (`DatabaseSchema`): name plus ordered table list. -/
structure DatabaseSchema where
  name : String
  tables : List TableSchema
deriving DecidableEq

/-- Derived list of table names (`DatabaseSchema.tableNames`), built by
pushing each table's name in order. -/
def DatabaseSchema.tableNames (s : DatabaseSchema) : List String :=
  s.tables.map (fun t => t.name)

/-- Derived name-to-table mapping (`DatabaseSchema.tableMap`); the JS object
assignment loop lets a later table overwrite an earlier one with the same
name, so lookup finds the last matching table. -/
def DatabaseSchema.tableMap (s : DatabaseSchema) (table : String) : Option TableSchema :=
  s.tables.reverse.find? (fun t => t.name = table)

/-- Operator object for one field of a query: any subset of the
`$lt, $lte, $gt, $gte, $ne` keys (bounds are numbers, as fed to
`Math.max` / `Math.min` by the source). -/
structure OpsObject where
  lt : Option Int
  lte : Option Int
  gt : Option Int
  gte : Option Int
  ne : Option Value
deriving DecidableEq

/-- One entry of a predicate mapping: either a primitive value
(`LocalDatabase._isPrimitive` true) or an operator object. -/
inductive QueryEntry
  | prim (v : Value)
  | ops (o : OpsObject)
deriving DecidableEq

/-- A predicate mapping, in JS object iteration order. -/
abbrev Query := List (String × QueryEntry)

/-- Scan target for an additive query: either an exact value handed to
`index.getAll(value)` or an `IDBKeyRange`. -/
inductive AddTarget
  | exact (v : Value)
  | keyBound (lower upper : Int) (lowerOpen upperOpen : Bool)
  | keyUpper (upper : Int) (isOpen : Bool)
  | keyLower (lower : Int) (isOpen : Bool)
deriving DecidableEq

/-- Failure modes of the embedded operations.  `dataError` stands for the
`DataError` a malformed `IDBKeyRange` construction or an invalid key raises;
`mergeTypeError` stands for the `TypeError` of calling `.map` on `undefined`
inside the result merger; either way the returned promise never yields rows. -/
inductive DBError
  | notSupported
  | notInitialized
  | noTable
  | missingTable
  | unknownColumn (col : String)
  | dataError
  | mergeTypeError
  | writeError
deriving DecidableEq

/-- Parse one `[columnName, columnEntry]` pair of the query exactly as the
destructuring loop at the top of `LocalDatabase.select` does: primitives
become exact additive queries; otherwise the effective lower bound is
`max($gt,$gte)` with `isGte := (greaterThan === $gte)`, the effective upper
bound is `min($lt,$lte)` with `isLte := (lessThan === $lte)`, and the three
mutually exclusive branches push a `bound` / `upperBound` / `lowerBound`
range.  The single-bound branches pass the raw `$lt` (resp. `$gt`) value to
the range constructor, so when only `$lte` (resp. `$gte`) is present the
constructor receives `undefined` and throws `DataError`; `IDBKeyRange.bound`
likewise throws when the lower key exceeds the upper key, or equals it with
an open end.  A `$ne` key additionally pushes a subtractive query. -/
def parseEntry (col : String) (e : QueryEntry) :
    Except DBError (Option (String × AddTarget) × Option (String × Value)) :=
  match e with
  | .prim v => .ok (some (col, .exact v), none)
  | .ops o =>
    let greaterThan : Option Int :=
      match o.gt, o.gte with
      | some g, some ge => some (max g ge)
      | some g, none => some g
      | none, some ge => some ge
      | none, none => none
    let isGte : Bool := greaterThan = o.gte
    let lessThan : Option Int :=
      match o.lt, o.lte with
      | some l, some le => some (min l le)
      | some l, none => some l
      | none, some le => some le
      | none, none => none
    let isLte : Bool := lessThan = o.lte
    let additive : Except DBError (Option (String × AddTarget)) :=
      match lessThan, greaterThan with
      | some lv, some gv =>
        if gv > lv ∨ (gv = lv ∧ ((!isGte) ∨ (!isLte))) then .error .dataError
        else .ok (some (col, .keyBound gv lv (!isGte) (!isLte)))
      | some _, none =>
        match o.lt with
        | some v => .ok (some (col, .keyUpper v (!isLte)))
        | none => .error .dataError
      | none, some _ =>
        match o.gt with
        | some v => .ok (some (col, .keyLower v (!isGte)))
        | none => .error .dataError
      | none, none => .ok none
    match additive with
    | .error err => .error err
    | .ok a => .ok (a, o.ne.map (fun v => (col, v)))

/-- Parse a whole predicate mapping into the `additiveQueries` and
`subtractiveQueries` lists, preserving the mapping's iteration order. -/
def parseQuery : Query → Except DBError (List (String × AddTarget) × List (String × Value))
  | [] => .ok ([], [])
  | (col, e) :: rest =>
    match parseEntry col e with
    | .error err => .error err
    | .ok (a, s) =>
      match parseQuery rest with
      | .error err => .error err
      | .ok (as, ss) => .ok (a.toList ++ as, s.toList ++ ss)

/-- Strict IndexedDB key order restricted to the modelled key types: numbers
compare numerically, strings compare by code units, and every number sorts
before every string. -/
def Value.ltb : Value → Value → Bool
  | .int a, .int b => a < b
  | .int _, .str _ => true
  | .str _, .int _ => false
  | .str a, .str b => a < b

/-- Non-strict IndexedDB key order. -/
def Value.leb (a b : Value) : Bool := Value.ltb a b || a = b

/-- Does a row land in the scan for one additive query?  `index.getAll`
returns exactly the rows whose indexed field is present and satisfies the
exact value or the key range under IndexedDB key order. -/
def matchesAdd (r : Row) (q : String × AddTarget) : Bool :=
  match rowField r q.1 with
  | none => false
  | some w =>
    match q.2 with
    | .exact v => w = v
    | .keyBound lo hi lo_open hi_open =>
      (if lo_open then Value.ltb (.int lo) w else Value.leb (.int lo) w) &&
      (if hi_open then Value.ltb w (.int hi) else Value.leb w (.int hi))
    | .keyUpper hi hi_open =>
      if hi_open then Value.ltb w (.int hi) else Value.leb w (.int hi)
    | .keyLower lo lo_open =>
      if lo_open then Value.ltb (.int lo) w else Value.leb (.int lo) w

/-- Rows produced by one index scan over the table's stored rows. -/
def scanEval (rows : List Row) (q : String × AddTarget) : List Row :=
  rows.filter (fun r => matchesAdd r q)

/-- Does the table have a secondary index for this column?  `store.index`
resolves only the indexes created from `otherColumns` during `upgrade`. -/
def colValid (tbl : TableSchema) (col : String) : Bool :=
  (tbl.otherColumns.map (fun c => c.name)).contains col

/-- One scan promise: `LocalDatabase._getIndex` throws when the column has
no index, otherwise `getAll` materializes all matching rows. -/
def scanOne (tbl : TableSchema) (rows : List Row) (q : String × AddTarget) :
    Except DBError (List Row) :=
  if colValid tbl q.1 then .ok (scanEval rows q) else .error (.unknownColumn q.1)

/-- All scans of one query array, in order (`getPromisesFromQueryArray`
followed by `Promise.all`). -/
def scanAll (tbl : TableSchema) (rows : List Row) :
    List (String × AddTarget) → Except DBError (List (List Row))
  | [] => .ok []
  | q :: qs =>
    match scanOne tbl rows q with
    | .error err => .error err
    | .ok b =>
      match scanAll tbl rows qs with
      | .error err => .error err
      | .ok bs => .ok (b :: bs)

namespace LocalDatabase

/-- `LocalDatabase._intersect`: keep the entries of `arrayToMerge` that also
appear in `baseArray` (string comparison on serialized rows). -/
def _intersect (baseArray arrayToMerge : List JsonString) : List JsonString :=
  arrayToMerge.filter (fun entry => entry ∈ baseArray)

/-- `LocalDatabase._difference`: asymmetric difference, keeping the entries
of `baseArray` absent from `arrayToCompare`. -/
def _difference (baseArray arrayToCompare : List JsonString) : List JsonString :=
  baseArray.filter (fun entry => entry ∉ arrayToCompare)

/-- `LocalDatabase._stringifyArrayElements`: `JSON.stringify` each row. -/
def _stringifyArrayElements (array : List Row) : List JsonString :=
  array.map (fun element => JsonString.mk element)

/-- `LocalDatabase._parseArrayElements`: `JSON.parse` each serialized row. -/
def _parseArrayElements (array : List JsonString) : List Row :=
  array.map (fun element => element.val)

end LocalDatabase

/-- The `intersectAndStringifyArrayOfArrays` closure of `select`: a `reduce`
over the batch list whose initial accumulator is the stringified first
batch and whose first step is skipped, i.e. a left fold of `_intersect` over
the remaining batches.  On an empty batch list, computing the initial value
indexes `arrayOfArrays[0]` (which is `undefined`) and `.map` on it throws a
`TypeError`, so the merge fails. -/
def intersectAndStringifyArrayOfArrays : List (List Row) → Except DBError (List JsonString)
  | [] => .error .mergeTypeError
  | first :: rest =>
    .ok (rest.foldl
      (fun accumulation current =>
        LocalDatabase._intersect accumulation (LocalDatabase._stringifyArrayElements current))
      (LocalDatabase._stringifyArrayElements first))

/-- Runtime state of the wrapper: the schema handed to `init`, whether
`LocalDatabase.instance` is bound, and the stored contents of every object
store. -/
structure LocalDB where
  schema : DatabaseSchema
  initialized : Bool
  rows : String → List Row

namespace LocalDatabase

/-- Promise body of `LocalDatabase.select`: the predicate parse, the
additive then subtractive index scans, the short-circuit returning the lone
batch (`additiveResult[0]`, which is `undefined` when no additive query
exists), and the stringify / intersect / difference / parse merge pipeline. -/
def selectBody (db : LocalDB) (table : String) (query : Query) :
    Except DBError (Option (List Row)) :=
  match parseQuery query with
    | .error err => .error err
    | .ok (adds, subs) =>
      match db.schema.tableMap table with
      | none => .error .missingTable
      | some tbl =>
        match scanAll tbl (db.rows table) adds with
        | .error err => .error err
        | .ok addBatches =>
          if subs.length = 0 ∧ addBatches.length ≤ 1 then .ok addBatches.head?
          else
            match intersectAndStringifyArrayOfArrays addBatches with
            | .error err => .error err
            | .ok stringifiedAdd =>
              if subs.length = 0 then .ok (some (_parseArrayElements stringifiedAdd))
              else
                match scanAll tbl (db.rows table)
                    (subs.map (fun s => (s.1, AddTarget.exact s.2))) with
                | .error err => .error err
                | .ok subBatches =>
                  match intersectAndStringifyArrayOfArrays subBatches with
                  | .error err => .error err
                  | .ok stringifiedSub =>
                    .ok (some (_parseArrayElements
                      (_difference stringifiedAdd stringifiedSub)))

/-- `LocalDatabase.select`: the three synchronous validations (missing
instance, missing table argument, table name absent from the schema), then
the promise body issuing the scans and merging their results. -/
def select (db : LocalDB) (table : String) (query : Query) :
    Except DBError (Option (List Row)) :=
  if db.initialized = false then .error .notInitialized
  else if table = "" then .error .noTable
  else if (db.schema.tableNames.contains table) = false then .error .missingTable
  else selectBody db table query

/-- `LocalDatabase.add`: the three synchronous validations, then one write
transaction doing `store.put` (upsert: replace any row holding the same
primary key) or `store.add` (strict insert, rejected on key collision).  A
row without a primary-key value on a non-generator store raises `DataError`. -/
def add (db : LocalDB) (table : String) (obj : Row) (upsert : Bool) :
    Except DBError LocalDB :=
  if db.initialized = false then .error .notInitialized
  else if table = "" then .error .noTable
  else if (db.schema.tableNames.contains table) = false then .error .missingTable
  else
    match db.schema.tableMap table with
    | none => .error .missingTable
    | some tbl =>
      match rowField obj tbl.keyColumn.name with
      | none => .error .dataError
      | some k =>
        if upsert then
          .ok ⟨db.schema, db.initialized, fun t =>
            if t = table then
              (db.rows table).filter
                (fun r => !(decide (rowField r tbl.keyColumn.name = some k))) ++ [obj]
            else db.rows t⟩
        else
          if (db.rows table).any (fun r => decide (rowField r tbl.keyColumn.name = some k)) then
            .error .writeError
          else
            .ok ⟨db.schema, db.initialized, fun t =>
              if t = table then db.rows table ++ [obj] else db.rows t⟩

/-- `LocalDatabase.delete`: the three synchronous validations, then the full
`select` pipeline to find the victims, extraction of each victim's
primary-key value (`results.map` throws a `TypeError` when `select`
resolved `undefined`), and one delete transaction per key. -/
def delete (db : LocalDB) (table : String) (query : Query) :
    Except DBError LocalDB :=
  if db.initialized = false then .error .notInitialized
  else if table = "" then .error .noTable
  else if (db.schema.tableNames.contains table) = false then .error .missingTable
  else
    match select db table query with
    | .error err => .error err
    | .ok none => .error .mergeTypeError
    | .ok (some results) =>
      match db.schema.tableMap table with
      | none => .error .missingTable
      | some tbl =>
        let keyCol := tbl.keyColumn.name
        let keys := results.map (fun entry => rowField entry keyCol)
        if keys.contains none then .error .dataError
        else
          .ok ⟨db.schema, db.initialized, fun t =>
            if t = table then
              (db.rows table).filter (fun r => !(keys.contains (rowField r keyCol)))
            else db.rows t⟩

end LocalDatabase

/-- Browser-wide IndexedDB environment: the persisted databases by name,
each a mapping from object-store name to stored rows. -/
def IDBEnv := String → Option (String → List Row)

/-- `window.indexedDB.deleteDatabase`: drop the named database. -/
def deleteDatabase (env : IDBEnv) (name : String) : IDBEnv :=
  fun n => if n = name then none else env n

namespace LocalDatabase

/-- `LocalDatabase.upgrade`: `createObjectStore` for every table of the
schema plus `createIndex` for its other columns; every freshly created store
is empty. -/
def upgradeStores (_schema : DatabaseSchema) : String → List Row :=
  fun _ => []

/-- `window.indexedDB.open`: when the named database is absent (or its
stored version is older) the upgrade callback creates the object stores;
otherwise the existing contents are opened as they are. -/
def openDatabase (env : IDBEnv) (name : String) (schema : DatabaseSchema) :
    IDBEnv × (String → List Row) :=
  match env name with
  | none =>
    let stores := upgradeStores schema
    (fun n => if n = name then some stores else env n, stores)
  | some stores => (env, stores)

/-- `LocalDatabase.init`: fail when the browser lacks IndexedDB, record the
schema, call `deleteDatabase(schema.name)`, then open the database (always
hitting the upgrade path, since the database was just deleted). -/
def init (indexedDBSupported : Bool) (env : IDBEnv) (schema : DatabaseSchema) :
    Except DBError (IDBEnv × LocalDB) :=
  if indexedDBSupported = false then .error .notSupported
  else
    let env1 := deleteDatabase env schema.name
    let opened := openDatabase env1 schema.name schema
    .ok (opened.1, ⟨schema, true, opened.2⟩)

end LocalDatabase

/-- Rows yielded by a completed `select`: the resolved row list, or no rows
at all when the call failed or resolved `undefined`. -/
def resultRows : Except DBError (Option (List Row)) → List Row
  | .ok (some l) => l
  | _ => []

/-- Success flag of an embedded operation. -/
def isOkB {α : Type} : Except DBError α → Bool
  | .ok _ => true
  | .error _ => false

/-- Additive clause contributed by one query entry. -/
def entryAdd (ce : String × QueryEntry) : Option (String × AddTarget) :=
  match parseEntry ce.1 ce.2 with
  | .ok (a, _) => a
  | .error _ => none

/-- Subtractive clause contributed by one query entry. -/
def entrySub (ce : String × QueryEntry) : Option (String × Value) :=
  match parseEntry ce.1 ce.2 with
  | .ok (_, s) => s
  | .error _ => none

/-! ### Concrete data from the repository's usage example -/

/-- Primary-key column of the example table. -/
def idCol : ColumnSchema := ⟨"id", true, false⟩

/-- Indexed first-name column of the example table. -/
def fnCol : ColumnSchema := ⟨"firstName", false, false⟩

/-- Indexed last-name column of the example table. -/
def lnCol : ColumnSchema := ⟨"lastName", false, false⟩

/-- Indexed age column of the example table. -/
def ageCol : ColumnSchema := ⟨"age", false, false⟩

/-- The example People table. -/
def peopleTable : TableSchema := ⟨"People", idCol, [fnCol, lnCol, ageCol], false⟩

/-- The example database schema. -/
def exSchema : DatabaseSchema := ⟨"MyDatabase", [peopleTable]⟩

/-- A People row with the canonical field order of the example inserts. -/
def mkPerson (i : Int) (f l : String) (a : Int) : Row :=
  [("id", .int i), ("firstName", .str f), ("lastName", .str l), ("age", .int a)]

/-- Six of the rows inserted by the repository's usage example. -/
def exRows : List Row :=
  [mkPerson 1 "John" "Doe" 42, mkPerson 2 "Bob" "Smith" 35,
   mkPerson 4 "David" "Gray" 20, mkPerson 6 "John" "Gilmore" 69,
   mkPerson 5 "John" "Robson" 69, mkPerson 3 "Harry" "Gardener" 66]

/-- The example database state after the example inserts. -/
def exDB : LocalDB := ⟨exSchema, true, fun t => if t = "People" then exRows else []⟩

/-- A one-row state whose single row sits exactly on the bound value 30. -/
def db30 : LocalDB :=
  ⟨exSchema, true, fun t => if t = "People" then [[("id", .int 1), ("age", .int 30)]] else []⟩

/-! ### Lemmas and claim theorems -/

/-! ### Membership lemmas for the result merger -/

theorem mem_stringify (x : JsonString) (b : List Row) :
    x ∈ LocalDatabase._stringifyArrayElements b ↔ x.val ∈ b := by
  unfold LocalDatabase._stringifyArrayElements
  constructor
  · intro hx
    rcases List.mem_map.mp hx with ⟨r, hr, hrx⟩
    simpa [← hrx] using hr
  · intro hx
    exact List.mem_map.mpr ⟨x.val, hx, rfl⟩

theorem mem_intersect (x : JsonString) (base merge : List JsonString) :
    x ∈ LocalDatabase._intersect base merge ↔ x ∈ merge ∧ x ∈ base := by
  unfold LocalDatabase._intersect
  simp [List.mem_filter]

theorem mem_difference (x : JsonString) (base cmp : List JsonString) :
    x ∈ LocalDatabase._difference base cmp ↔ x ∈ base ∧ x ∉ cmp := by
  unfold LocalDatabase._difference
  simp [List.mem_filter]

theorem mem_foldl_intersect (bs : List (List Row)) (init : List JsonString) (x : JsonString) :
    x ∈ bs.foldl
        (fun accumulation current =>
          LocalDatabase._intersect accumulation (LocalDatabase._stringifyArrayElements current))
        init ↔
      x ∈ init ∧ ∀ b ∈ bs, x.val ∈ b := by
  induction bs generalizing init with
  | nil => simp
  | cons b rest ih =>
    rw [List.foldl_cons, ih]
    rw [mem_intersect, mem_stringify]
    constructor
    · rintro ⟨⟨hb, hinit⟩, hrest⟩
      exact ⟨hinit, fun c hc => by
        rcases List.mem_cons.mp hc with h | h
        · exact h ▸ hb
        · exact hrest c h⟩
    · rintro ⟨hinit, hall⟩
      exact ⟨⟨hall b (List.mem_cons_self b rest), hinit⟩,
        fun c hc => hall c (List.mem_cons_of_mem b hc)⟩

theorem mem_intersectAndStringify (b : List Row) (bs : List (List Row))
    (out : List JsonString) (x : JsonString)
    (h : intersectAndStringifyArrayOfArrays (b :: bs) = .ok out) :
    x ∈ out ↔ ∀ a ∈ b :: bs, x.val ∈ a := by
  unfold intersectAndStringifyArrayOfArrays at h
  injection h with h
  rw [← h, mem_foldl_intersect, mem_stringify]
  constructor
  · rintro ⟨hb, hrest⟩ a ha
    rcases List.mem_cons.mp ha with h' | h'
    · exact h' ▸ hb
    · exact hrest a h'
  · intro hall
    exact ⟨hall b (List.mem_cons_self b bs), fun a ha => hall a (List.mem_cons_of_mem b ha)⟩

theorem mem_parseArrayElements (r : Row) (l : List JsonString) :
    r ∈ LocalDatabase._parseArrayElements l ↔ JsonString.mk r ∈ l := by
  unfold LocalDatabase._parseArrayElements
  constructor
  · intro hr
    rcases List.mem_map.mp hr with ⟨j, hj, hjr⟩
    cases j
    simpa [← hjr] using hj
  · intro hr
    exact List.mem_map.mpr ⟨JsonString.mk r, hr, rfl⟩

/-! ### Lemmas about the index scans -/

theorem mem_scanEval (r : Row) (rows : List Row) (q : String × AddTarget) :
    r ∈ scanEval rows q ↔ r ∈ rows ∧ matchesAdd r q = true := by
  unfold scanEval
  simp [List.mem_filter]

theorem matchesAdd_exact (r : Row) (col : String) (v : Value) :
    matchesAdd r (col, .exact v) = true ↔ rowField r col = some v := by
  unfold matchesAdd
  cases h : rowField r col with
  | none => simp
  | some w => simp [decide_eq_true_eq]

theorem scanAll_eq (tbl : TableSchema) (rows : List Row)
    (l : List (String × AddTarget)) (h : ∀ q ∈ l, colValid tbl q.1 = true) :
    scanAll tbl rows l = .ok (l.map (scanEval rows)) := by
  induction l with
  | nil => rfl
  | cons q qs ih =>
    have hq := h q (List.mem_cons_self q qs)
    have hqs := ih (fun a ha => h a (List.mem_cons_of_mem q ha))
    unfold scanAll scanOne
    rw [if_pos hq, hqs]
    simp

theorem scanAll_ok (tbl : TableSchema) (rows : List Row)
    (l : List (String × AddTarget)) (bs : List (List Row))
    (h : scanAll tbl rows l = .ok bs) :
    (∀ q ∈ l, colValid tbl q.1 = true) ∧ bs = l.map (scanEval rows) := by
  induction l generalizing bs with
  | nil =>
    unfold scanAll at h
    injection h with h
    exact ⟨by simp, h.symm⟩
  | cons q qs ih =>
    unfold scanAll scanOne at h
    by_cases hq : colValid tbl q.1 = true
    · rw [if_pos hq] at h
      cases hqs : scanAll tbl rows qs with
      | error err => rw [hqs] at h; exact absurd h (by simp)
      | ok bs' =>
        rw [hqs] at h
        injection h with h
        rcases ih bs' hqs with ⟨hall, hbs⟩
        refine ⟨fun a ha => ?_, by rw [← h, hbs, List.map_cons]⟩
        rcases List.mem_cons.mp ha with h' | h'
        · exact h' ▸ hq
        · exact hall a h'
    · rw [if_neg hq] at h
      exact absurd h (by simp)

/-! ### Lemmas about the predicate parser -/

theorem parseQuery_eq (q : Query)
    (h : ∀ ce ∈ q, isOkB (parseEntry ce.1 ce.2) = true) :
    parseQuery q = .ok (q.filterMap entryAdd, q.filterMap entrySub) := by
  induction q with
  | nil => rfl
  | cons ce rest ih =>
    have hce := h ce (List.mem_cons_self ce rest)
    have hrest := ih (fun a ha => h a (List.mem_cons_of_mem ce ha))
    obtain ⟨c, e⟩ := ce
    cases hpe : parseEntry c e with
    | error err => rw [hpe] at hce; simp [isOkB] at hce
    | ok p =>
      obtain ⟨a, s⟩ := p
      show parseQuery ((c, e) :: rest) = _
      unfold parseQuery
      rw [hpe, hrest]
      have ha : entryAdd (c, e) = a := by unfold entryAdd; rw [hpe]
      have hs : entrySub (c, e) = s := by unfold entrySub; rw [hpe]
      rw [List.filterMap_cons, List.filterMap_cons, ha, hs]
      cases a <;> cases s <;> simp

theorem parseQuery_ok (q : Query)
    (A : List (String × AddTarget)) (S : List (String × Value))
    (h : parseQuery q = .ok (A, S)) :
    ∀ ce ∈ q, isOkB (parseEntry ce.1 ce.2) = true := by
  induction q generalizing A S with
  | nil => simp
  | cons ce rest ih =>
    obtain ⟨c, e⟩ := ce
    unfold parseQuery at h
    cases hpe : parseEntry c e with
    | error err => rw [hpe] at h; exact absurd h (by simp)
    | ok p =>
      obtain ⟨a, s⟩ := p
      rw [hpe] at h
      cases hrest : parseQuery rest with
      | error err => rw [hrest] at h; exact absurd h (by simp)
      | ok P =>
        obtain ⟨as, ss⟩ := P
        intro x hx
        rcases List.mem_cons.mp hx with h' | h'
        · subst h'; simp [isOkB, hpe]
        · exact ih as ss hrest x h'

theorem select_eq_body (db : LocalDB) (table : String) (query : Query)
    (hinit : db.initialized = true) (ht : ¬ table = "")
    (hc : (db.schema.tableNames.contains table) = true) :
    LocalDatabase.select db table query = LocalDatabase.selectBody db table query := by
  unfold LocalDatabase.select
  rw [hinit, hc]
  rw [if_neg (by decide : ¬ (true = false)), if_neg ht,
    if_neg (by decide : ¬ (true = false))]

theorem tableMap_isSome (s : DatabaseSchema) (table : String)
    (h : (s.tableNames.contains table) = true) :
    ∃ tbl, s.tableMap table = some tbl := by
  have hmem : table ∈ s.tableNames := by
    simpa using h
  rcases List.mem_map.mp hmem with ⟨t, ht, hname⟩
  have hrev : t ∈ s.tables.reverse := List.mem_reverse.mpr ht
  have : (s.tables.reverse.find? (fun t => t.name = table)).isSome := by
    rw [List.find?_isSome]
    exact ⟨t, hrev, by simp [hname]⟩
  rcases Option.isSome_iff_exists.mp this with ⟨tbl, htbl⟩
  exact ⟨tbl, htbl⟩

theorem intersectAndStringify_cons (b : List Row) (bs : List (List Row)) :
    ∃ out, intersectAndStringifyArrayOfArrays (b :: bs) = .ok out ∧
      ∀ x : JsonString, x ∈ out ↔ ∀ a ∈ b :: bs, x.val ∈ a :=
  ⟨_, rfl, fun x => mem_intersectAndStringify b bs _ x rfl⟩

theorem mem_all_batches (r : Row) (rows : List Row)
    (l : List (String × AddTarget)) (hne : l ≠ []) :
    (∀ b ∈ l.map (scanEval rows), r ∈ b) ↔
      (r ∈ rows ∧ ∀ a ∈ l, matchesAdd r a = true) := by
  constructor
  · intro hall
    rcases List.exists_cons_of_ne_nil hne with ⟨a, l', rfl⟩
    have h0 : r ∈ scanEval rows a :=
      hall _ (List.mem_map.mpr ⟨a, List.mem_cons_self a l', rfl⟩)
    refine ⟨((mem_scanEval r rows a).mp h0).1, fun a' ha' => ?_⟩
    have : r ∈ scanEval rows a' := hall _ (List.mem_map.mpr ⟨a', ha', rfl⟩)
    exact ((mem_scanEval r rows a').mp this).2
  · rintro ⟨hr, hmatch⟩ b hb
    rcases List.mem_map.mp hb with ⟨a, ha, rfl⟩
    exact (mem_scanEval r rows a).mpr ⟨hr, hmatch a ha⟩

/-- Membership characterization of a successful non-degenerate `select`: when
the query parses, at least one inclusion clause exists, and every referenced
column is indexed, `select` resolves with a row list containing exactly the
stored rows matched by every inclusion scan and, when exclusion clauses
exist, not matched by every exclusion scan simultaneously. -/
theorem select_mem
    (db : LocalDB) (table : String) (query : Query) (tbl : TableSchema)
    (adds : List (String × AddTarget)) (subs : List (String × Value))
    (hinit : db.initialized = true)
    (ht : ¬ table = "")
    (hc : (db.schema.tableNames.contains table) = true)
    (htbl : db.schema.tableMap table = some tbl)
    (hp : parseQuery query = .ok (adds, subs))
    (ha : ∀ a ∈ adds, colValid tbl a.1 = true)
    (hs : ∀ s ∈ subs, colValid tbl s.1 = true)
    (hadds : adds ≠ []) :
    ∃ out, LocalDatabase.select db table query = .ok (some out) ∧
      ∀ r : Row, r ∈ out ↔
        (r ∈ db.rows table ∧ (∀ a ∈ adds, matchesAdd r a = true) ∧
          ¬(subs ≠ [] ∧ ∀ s ∈ subs, rowField r s.1 = some s.2)) := by
  have hscan : scanAll tbl (db.rows table) adds =
      .ok (adds.map (scanEval (db.rows table))) :=
    scanAll_eq tbl (db.rows table) adds ha
  rw [select_eq_body db table query hinit ht hc]
  unfold LocalDatabase.selectBody
  rw [hp]
  dsimp only
  rw [htbl]
  dsimp only
  rw [hscan]
  dsimp only
  rcases List.exists_cons_of_ne_nil hadds with ⟨a0, adds', rfl⟩
  rw [List.map_cons]
  obtain ⟨SA, hSA, hmemSA⟩ :=
    intersectAndStringify_cons (scanEval (db.rows table) a0) (adds'.map (scanEval (db.rows table)))
  have hAdd : ∀ x : Row,
      (∀ a ∈ scanEval (db.rows table) a0 :: adds'.map (scanEval (db.rows table)), x ∈ a) ↔
        (x ∈ db.rows table ∧ ∀ a ∈ a0 :: adds', matchesAdd x a = true) := by
    intro x
    have h := mem_all_batches x (db.rows table) (a0 :: adds') (by simp)
    rwa [List.map_cons] at h
  by_cases hsubs : subs = []
  · subst hsubs
    by_cases hlen : adds' = []
    · subst hlen
      rw [if_pos (by simp)]
      refine ⟨scanEval (db.rows table) a0, rfl, fun r => ?_⟩
      rw [mem_scanEval]
      simp
    · rw [if_neg (by simp [hlen, List.length_eq_zero])]
      rw [hSA]
      dsimp only
      rw [if_pos (show ([] : List (String × Value)).length = 0 from rfl)]
      refine ⟨_, rfl, fun r => ?_⟩
      rw [mem_parseArrayElements, hmemSA]
      have := hAdd r
      simp only [JsonString.mk.injEq] at *
      constructor
      · intro hin
        rcases this.mp hin with ⟨hr, hm⟩
        exact ⟨hr, hm, by simp⟩
      · rintro ⟨hr, hm, -⟩
        exact this.mpr ⟨hr, hm⟩
  · have hlsub : ¬ (subs.length = 0 ∧ (scanEval (db.rows table) a0 :: adds'.map (scanEval (db.rows table))).length ≤ 1) := by
      rintro ⟨h0, -⟩
      exact hsubs (List.length_eq_zero.mp h0)
    rw [if_neg hlsub, hSA]
    dsimp only
    rw [if_neg (fun h0 => hsubs (List.length_eq_zero.mp h0))]
    have hsubscan : scanAll tbl (db.rows table) (subs.map (fun s => (s.1, AddTarget.exact s.2))) =
        .ok ((subs.map (fun s => (s.1, AddTarget.exact s.2))).map (scanEval (db.rows table))) := by
      refine scanAll_eq tbl (db.rows table) _ (fun q hq => ?_)
      rcases List.mem_map.mp hq with ⟨s, hsmem, rfl⟩
      exact hs s hsmem
    rw [hsubscan]
    dsimp only
    rcases List.exists_cons_of_ne_nil hsubs with ⟨s0, subs', rfl⟩
    rw [List.map_cons, List.map_cons]
    obtain ⟨SS, hSS, hmemSS⟩ :=
      intersectAndStringify_cons (scanEval (db.rows table) (s0.1, AddTarget.exact s0.2))
        ((subs'.map (fun s => (s.1, AddTarget.exact s.2))).map (scanEval (db.rows table)))
    rw [hSS]
    dsimp only
    have hSub : ∀ x : Row,
        (∀ a ∈ scanEval (db.rows table) (s0.1, AddTarget.exact s0.2) ::
            (subs'.map (fun s => (s.1, AddTarget.exact s.2))).map (scanEval (db.rows table)), x ∈ a) ↔
          (x ∈ db.rows table ∧ ∀ s ∈ s0 :: subs', rowField x s.1 = some s.2) := by
      intro x
      constructor
      · intro hall
        have h0 : x ∈ scanEval (db.rows table) (s0.1, AddTarget.exact s0.2) :=
          hall _ (List.mem_cons_self _ _)
        rcases (mem_scanEval _ _ _).mp h0 with ⟨hr, hm0⟩
        refine ⟨hr, fun s hsmem => ?_⟩
        rcases List.mem_cons.mp hsmem with h' | h'
        · subst h'
          exact (matchesAdd_exact x s.1 s.2).mp hm0
        · have hmem : x ∈ scanEval (db.rows table) (s.1, AddTarget.exact s.2) :=
            hall _ (List.mem_cons_of_mem _
              (List.mem_map.mpr ⟨(s.1, AddTarget.exact s.2), List.mem_map.mpr ⟨s, h', rfl⟩, rfl⟩))
          exact (matchesAdd_exact x s.1 s.2).mp ((mem_scanEval _ _ _).mp hmem).2
      · rintro ⟨hr, hall⟩ a ha
        rcases List.mem_cons.mp ha with h' | h'
        · subst h'
          exact (mem_scanEval _ _ _).mpr
            ⟨hr, (matchesAdd_exact x s0.1 s0.2).mpr (hall s0 (List.mem_cons_self _ _))⟩
        · rcases List.mem_map.mp h' with ⟨q, hq, rfl⟩
          rcases List.mem_map.mp hq with ⟨s, hsmem, rfl⟩
          exact (mem_scanEval _ _ _).mpr
            ⟨hr, (matchesAdd_exact x s.1 s.2).mpr (hall s (List.mem_cons_of_mem _ hsmem))⟩
    refine ⟨_, rfl, fun r => ?_⟩
    rw [mem_parseArrayElements, mem_difference, hmemSA, hmemSS]
    have hA := hAdd r
    have hS := hSub r
    dsimp only at *
    rw [hA, hS]
    constructor
    · rintro ⟨⟨hr, hm⟩, hnot⟩
      exact ⟨hr, hm, fun hcontra => hnot ⟨hr, hcontra.2⟩⟩
    · rintro ⟨hr, hm, hnot⟩
      exact ⟨⟨hr, hm⟩, fun hcontra => hnot ⟨by simp, hcontra.2⟩⟩

theorem parseQuery_prims (q : List (String × Value)) :
    parseQuery (q.map (fun p => (p.1, QueryEntry.prim p.2))) =
      .ok (q.map (fun p => (p.1, AddTarget.exact p.2)), []) := by
  induction q with
  | nil => rfl
  | cons p rest ih =>
    show parseQuery ((p.1, QueryEntry.prim p.2) :: rest.map (fun p => (p.1, QueryEntry.prim p.2))) = _
    unfold parseQuery
    rw [ih]
    rfl

/-- C1: for a predicate mapping whose fields are all primitive equality
values (and name indexed columns of a known table), `select` resolves with
exactly the stored rows whose fields simultaneously match every given
value, membership being by row content. -/
theorem C1_equality_select (db : LocalDB) (table : String) (tbl : TableSchema)
    (q : List (String × Value))
    (hinit : db.initialized = true) (ht : ¬ table = "")
    (hc : (db.schema.tableNames.contains table) = true)
    (htbl : db.schema.tableMap table = some tbl)
    (hcols : ∀ p ∈ q, colValid tbl p.1 = true)
    (hne : q ≠ []) :
    ∃ out, LocalDatabase.select db table (q.map (fun p => (p.1, QueryEntry.prim p.2))) =
        .ok (some out) ∧
      ∀ r : Row, r ∈ out ↔ (r ∈ db.rows table ∧ ∀ p ∈ q, rowField r p.1 = some p.2) := by
  obtain ⟨out, hsel, hmem⟩ :=
    select_mem db table (q.map (fun p => (p.1, QueryEntry.prim p.2))) tbl
      (q.map (fun p => (p.1, AddTarget.exact p.2))) []
      hinit ht hc htbl (parseQuery_prims q)
      (by
        intro a ha
        rcases List.mem_map.mp ha with ⟨p, hp, rfl⟩
        exact hcols p hp)
      (by simp)
      (by simpa using hne)
  refine ⟨out, hsel, fun r => ?_⟩
  rw [hmem r]
  constructor
  · rintro ⟨hr, hmatch, -⟩
    refine ⟨hr, fun p hp => ?_⟩
    exact (matchesAdd_exact r p.1 p.2).mp
      (hmatch _ (List.mem_map.mpr ⟨p, hp, rfl⟩))
  · rintro ⟨hr, hfields⟩
    refine ⟨hr, fun a ha => ?_, by simp⟩
    rcases List.mem_map.mp ha with ⟨p, hp, rfl⟩
    exact (matchesAdd_exact r p.1 p.2).mpr (hfields p hp)

/-- Witness for C1 on the example data: the two-field equality query for
first name John and age 69. -/
theorem C1_equality_select_witness :
    (∀ p ∈ ([("firstName", Value.str "John"), ("age", Value.int 69)] : List (String × Value)),
      colValid peopleTable p.1 = true) ∧
    (∃ out, LocalDatabase.select exDB "People"
        (([("firstName", Value.str "John"), ("age", Value.int 69)] : List (String × Value)).map
          (fun p => (p.1, QueryEntry.prim p.2))) = .ok (some out) ∧
      ∀ r : Row, r ∈ out ↔
        (r ∈ exDB.rows "People" ∧
          ∀ p ∈ ([("firstName", Value.str "John"), ("age", Value.int 69)] : List (String × Value)),
            rowField r p.1 = some p.2)) :=
  ⟨by decide,
    C1_equality_select exDB "People" peopleTable
      [("firstName", Value.str "John"), ("age", Value.int 69)]
      rfl (by decide) (by decide) (by decide) (by decide) (by decide)⟩

/-- C2 counterexample: with `$gt:30` and `$gte:30` together on the age
field, the row whose age is exactly 30 appears in the rows `select`
resolves with — the tied bound is inclusive, not exclusive, because
`isGte = (greaterThan === $gte)` is true when the two values are equal. -/
theorem C2_tie_counterexample :
    [("id", Value.int 1), ("age", Value.int 30)] ∈
      resultRows (LocalDatabase.select db30 "People"
        [("age", QueryEntry.ops ⟨none, none, some 30, some 30, none⟩)]) ∧
    rowField [("id", Value.int 1), ("age", Value.int 30)] "age" = some (Value.int 30) := by
  decide

/-- C2 amended: when `$gt` and `$gte` carry the same value the parser emits
an inclusive lower bound at that value (the `$gte` semantics wins the tie),
so a row sitting exactly on the bound matches the scan; analogously a
`$lt`/`$lte` tie yields an inclusive upper bound. -/
theorem C2_tie_inclusive (v : Int) (col : String) (r : Row)
    (hr : rowField r col = some (.int v)) :
    parseEntry col (QueryEntry.ops ⟨none, none, some v, some v, none⟩) =
      .ok (some (col, .keyLower v false), none) ∧
    parseEntry col (QueryEntry.ops ⟨some v, some v, none, none, none⟩) =
      .ok (some (col, .keyUpper v false), none) ∧
    matchesAdd r (col, .keyLower v false) = true ∧
    matchesAdd r (col, .keyUpper v false) = true := by
  refine ⟨?_, ?_, ?_, ?_⟩
  · unfold parseEntry
    simp [max_self]
  · unfold parseEntry
    simp [min_self]
  · unfold matchesAdd
    rw [hr]
    simp [Value.leb, Value.ltb]
  · unfold matchesAdd
    rw [hr]
    simp [Value.leb, Value.ltb]

/-- Witness for C2's amended claim at the bound value 30. -/
theorem C2_tie_inclusive_witness :
    rowField [("age", Value.int 30)] "age" = some (Value.int 30) ∧
    (parseEntry "age" (QueryEntry.ops ⟨none, none, some 30, some 30, none⟩) =
        .ok (some ("age", .keyLower 30 false), none) ∧
      parseEntry "age" (QueryEntry.ops ⟨some 30, some 30, none, none, none⟩) =
        .ok (some ("age", .keyUpper 30 false), none) ∧
      matchesAdd [("age", Value.int 30)] ("age", .keyLower 30 false) = true ∧
      matchesAdd [("age", Value.int 30)] ("age", .keyUpper 30 false) = true) :=
  ⟨by decide, C2_tie_inclusive 30 "age" [("age", Value.int 30)] (by decide)⟩

/-- C3: evaluating the parser and `select` at the failing input
`age: ($lte: 30)` — the upper-only branch passes the raw `$lt` value
(absent, i.e. `undefined`) to `IDBKeyRange.upperBound`, which throws
`DataError`, so `select` fails instead of issuing an inclusive UpperBound
scan at 30; symmetrically `age: ($gte: 20)` alone fails instead of issuing
an inclusive LowerBound scan.  With `$lt` alone the branch does work,
producing the exclusive upper bound the claim describes. -/
theorem C3_single_bound_dataError :
    parseEntry "age" (QueryEntry.ops ⟨none, some 30, none, none, none⟩) =
      .error .dataError ∧
    parseEntry "age" (QueryEntry.ops ⟨none, none, none, some 20, none⟩) =
      .error .dataError ∧
    LocalDatabase.select exDB "People"
      [("age", QueryEntry.ops ⟨none, some 30, none, none, none⟩)] = .error .dataError ∧
    LocalDatabase.select exDB "People"
      [("age", QueryEntry.ops ⟨none, none, none, some 20, none⟩)] = .error .dataError ∧
    parseEntry "age" (QueryEntry.ops ⟨some 30, none, none, none, none⟩) =
      .ok (some ("age", .keyUpper 30 true), none) ∧
    parseEntry "age" (QueryEntry.ops ⟨none, none, some 20, none, none⟩) =
      .ok (some ("age", .keyLower 20 true), none) :=
  ⟨by decide, by decide, by decide, by decide, by decide, by decide⟩

/-- C4: for a query combining inclusion clauses with a `$ne` field, the
result is the asymmetric set difference — exactly the rows of the inclusion
intersection whose `$ne` field does not hold the excluded value; rows
matched only by the exclusion scan never appear. -/
theorem C4_ne_difference (db : LocalDB) (table : String) (tbl : TableSchema)
    (q : Query) (adds : List (String × AddTarget)) (ncol : String) (nval : Value)
    (hinit : db.initialized = true) (ht : ¬ table = "")
    (hc : (db.schema.tableNames.contains table) = true)
    (htbl : db.schema.tableMap table = some tbl)
    (hp : parseQuery q = .ok (adds, [(ncol, nval)]))
    (ha : ∀ a ∈ adds, colValid tbl a.1 = true)
    (hncol : colValid tbl ncol = true)
    (hadds : adds ≠ []) :
    ∃ out, LocalDatabase.select db table q = .ok (some out) ∧
      ∀ r : Row, r ∈ out ↔
        ((r ∈ db.rows table ∧ ∀ a ∈ adds, matchesAdd r a = true) ∧
          ¬ rowField r ncol = some nval) := by
  obtain ⟨out, hsel, hmem⟩ :=
    select_mem db table q tbl adds [(ncol, nval)] hinit ht hc htbl hp ha
      (by
        rintro s hs
        rcases List.mem_singleton.mp hs with rfl
        exact hncol)
      hadds
  refine ⟨out, hsel, fun r => ?_⟩
  rw [hmem r]
  simp only [ne_eq, List.forall_mem_singleton]
  constructor
  · rintro ⟨hr, hm, hnot⟩
    exact ⟨⟨hr, hm⟩, fun hv => hnot ⟨by simp, hv⟩⟩
  · rintro ⟨⟨hr, hm⟩, hnot⟩
    exact ⟨hr, hm, fun hcontra => hnot hcontra.2⟩

/-- Witness for C4 on the six example rows: the spec's John/69/not-Gilmore
query. -/
theorem C4_ne_difference_witness :
    parseQuery
        [("firstName", QueryEntry.prim (Value.str "John")),
         ("age", QueryEntry.prim (Value.int 69)),
         ("lastName", QueryEntry.ops ⟨none, none, none, none, some (Value.str "Gilmore")⟩)] =
      .ok ([("firstName", AddTarget.exact (Value.str "John")),
            ("age", AddTarget.exact (Value.int 69))],
           [("lastName", Value.str "Gilmore")]) ∧
    (∃ out, LocalDatabase.select exDB "People"
        [("firstName", QueryEntry.prim (Value.str "John")),
         ("age", QueryEntry.prim (Value.int 69)),
         ("lastName", QueryEntry.ops ⟨none, none, none, none, some (Value.str "Gilmore")⟩)] =
          .ok (some out) ∧
      ∀ r : Row, r ∈ out ↔
        ((r ∈ exDB.rows "People" ∧
            ∀ a ∈ [("firstName", AddTarget.exact (Value.str "John")),
                   ("age", AddTarget.exact (Value.int 69))], matchesAdd r a = true) ∧
          ¬ rowField r "lastName" = some (Value.str "Gilmore"))) :=
  ⟨by decide,
    C4_ne_difference exDB "People" peopleTable _ _ "lastName" (Value.str "Gilmore")
      rfl (by decide) (by decide) (by decide) (by decide) (by decide) (by decide) (by decide)⟩

/-- C6: with no exclusion clause and at most one inclusion clause, `select`
resolves directly with the head of the batch list — the lone scan's rows
verbatim, or `undefined` (no row list) when the query produced no clause at
all — skipping the stringify/intersect machinery. -/
theorem C6_single_batch_shortcut (db : LocalDB) (table : String) (tbl : TableSchema)
    (q : Query) (adds : List (String × AddTarget))
    (hinit : db.initialized = true) (ht : ¬ table = "")
    (hc : (db.schema.tableNames.contains table) = true)
    (htbl : db.schema.tableMap table = some tbl)
    (hp : parseQuery q = .ok (adds, []))
    (ha : ∀ a ∈ adds, colValid tbl a.1 = true)
    (hlen : adds.length ≤ 1) :
    LocalDatabase.select db table q =
      .ok ((adds.map (scanEval (db.rows table))).head?) := by
  rw [select_eq_body db table q hinit ht hc]
  unfold LocalDatabase.selectBody
  rw [hp]
  dsimp only
  rw [htbl]
  dsimp only
  rw [scanAll_eq tbl (db.rows table) adds ha]
  dsimp only
  rw [if_pos ⟨rfl, by simpa using hlen⟩]

/-- Witness for C6: the single-clause query on age 42 returns the lone
batch, and the empty query yields no row list at all. -/
theorem C6_single_batch_shortcut_witness :
    (([("age", AddTarget.exact (Value.int 42))] : List (String × AddTarget)).length ≤ 1 ∧
      LocalDatabase.select exDB "People" [("age", QueryEntry.prim (Value.int 42))] =
        .ok (([("age", AddTarget.exact (Value.int 42))].map (scanEval (exDB.rows "People"))).head?)) ∧
    LocalDatabase.select exDB "People" [] = .ok none :=
  ⟨⟨by decide,
      C6_single_batch_shortcut exDB "People" peopleTable
        [("age", QueryEntry.prim (Value.int 42))] [("age", AddTarget.exact (Value.int 42))]
        rfl (by decide) (by decide) (by decide) (by decide) (by decide) (by decide)⟩,
    C6_single_batch_shortcut exDB "People" peopleTable [] [] rfl (by decide) (by decide)
      (by decide) (by decide) (by decide) (by decide)⟩

/-- C7: an operation on a table name absent from the schema fails with the
missing-table error synchronously, for every stored state alike (so no
storage-engine call is involved and no stored row is touched): this holds
for select, add and delete. -/
theorem C7_missing_table (db : LocalDB) (table : String) (q : Query)
    (obj : Row) (upsert : Bool)
    (hinit : db.initialized = true) (ht : ¬ table = "")
    (hc : (db.schema.tableNames.contains table) = false) :
    LocalDatabase.select db table q = .error .missingTable ∧
    LocalDatabase.add db table obj upsert = .error .missingTable ∧
    LocalDatabase.delete db table q = .error .missingTable := by
  refine ⟨?_, ?_, ?_⟩
  · unfold LocalDatabase.select
    rw [hinit, hc]
    rw [if_neg (by decide : ¬ (true = false)), if_neg ht, if_pos rfl]
  · unfold LocalDatabase.add
    rw [hinit, hc]
    rw [if_neg (by decide : ¬ (true = false)), if_neg ht, if_pos rfl]
  · unfold LocalDatabase.delete
    rw [hinit, hc]
    rw [if_neg (by decide : ¬ (true = false)), if_neg ht, if_pos rfl]

/-- Witness for C7: the unknown table name NoSuchTable on the example
database. -/
theorem C7_missing_table_witness :
    (exDB.schema.tableNames.contains "NoSuchTable") = false ∧
    (LocalDatabase.select exDB "NoSuchTable" [] = .error .missingTable ∧
      LocalDatabase.add exDB "NoSuchTable" [] true = .error .missingTable ∧
      LocalDatabase.delete exDB "NoSuchTable" [] = .error .missingTable) :=
  ⟨by decide, C7_missing_table exDB "NoSuchTable" [] [] true rfl (by decide) (by decide)⟩

/-- C9: a query producing at least one exclusion clause but no inclusion
clause never resolves with rows: the merge step stringifies the first entry
of the empty inclusion-batch list (`undefined`) and fails. -/
theorem C9_exclusion_only_fails (db : LocalDB) (table : String) (tbl : TableSchema)
    (q : Query) (subs : List (String × Value))
    (hinit : db.initialized = true) (ht : ¬ table = "")
    (hc : (db.schema.tableNames.contains table) = true)
    (htbl : db.schema.tableMap table = some tbl)
    (hp : parseQuery q = .ok ([], subs))
    (hsubs : subs ≠ []) :
    LocalDatabase.select db table q = .error .mergeTypeError := by
  rw [select_eq_body db table q hinit ht hc]
  unfold LocalDatabase.selectBody
  rw [hp]
  dsimp only
  rw [htbl]
  dsimp only
  rw [show scanAll tbl (db.rows table) ([] : List (String × AddTarget)) = .ok [] from rfl]
  dsimp only
  rw [if_neg (fun hcontra => hsubs (List.length_eq_zero.mp hcontra.1))]
  rfl

/-- Witness for C9: the pure `lastName not Gilmore` query on the example
database. -/
theorem C9_exclusion_only_fails_witness :
    parseQuery [("lastName", QueryEntry.ops ⟨none, none, none, none, some (Value.str "Gilmore")⟩)] =
      .ok ([], [("lastName", Value.str "Gilmore")]) ∧
    LocalDatabase.select exDB "People"
      [("lastName", QueryEntry.ops ⟨none, none, none, none, some (Value.str "Gilmore")⟩)] =
      .error .mergeTypeError :=
  ⟨by decide,
    C9_exclusion_only_fails exDB "People" peopleTable _ [("lastName", Value.str "Gilmore")]
      rfl (by decide) (by decide) (by decide) (by decide) (by decide)⟩

/-- C10: `init` always deletes the schema's database before opening it, so
whatever the environment held beforehand, initialization completes with a
bound instance whose every table is empty, and the reopened database in the
environment holds those empty stores. -/
theorem C10_init_clears (env : IDBEnv) (schema : DatabaseSchema) :
    ∃ p : IDBEnv × LocalDB, LocalDatabase.init true env schema = .ok p ∧
      p.2.initialized = true ∧ p.2.schema = schema ∧
      (∀ t, p.2.rows t = []) ∧ p.1 schema.name = some p.2.rows := by
  have hdel : deleteDatabase env schema.name schema.name = none := if_pos rfl
  unfold LocalDatabase.init LocalDatabase.openDatabase
  rw [if_neg (by decide : ¬ (true = false))]
  dsimp only
  rw [hdel]
  dsimp only
  exact ⟨_, rfl, rfl, rfl, fun t => rfl, by simp⟩

/-- C5 counterexample: the merger does not deduplicate — intersecting the
batches containing one and two copies of the same row leaves two
content-identical rows in the merged sequence. -/
theorem C5_duplicate_counterexample :
    intersectAndStringifyArrayOfArrays
        [[[("id", Value.int 1)]], [[("id", Value.int 1)], [("id", Value.int 1)]]] =
      .ok [JsonString.mk [("id", Value.int 1)], JsonString.mk [("id", Value.int 1)]] ∧
    ¬ (LocalDatabase._parseArrayElements
        [JsonString.mk [("id", Value.int 1)], JsonString.mk [("id", Value.int 1)]]).Nodup :=
  ⟨by decide, by decide⟩

theorem nodup_stringify (b : List Row) (h : b.Nodup) :
    (LocalDatabase._stringifyArrayElements b).Nodup :=
  h.map (fun _ _ h' => congrArg JsonString.val h')

theorem nodup_parse (l : List JsonString) (h : l.Nodup) :
    (LocalDatabase._parseArrayElements l).Nodup :=
  h.map (fun j1 j2 h' => by cases j1; cases j2; cases h'; rfl)

theorem nodup_foldl_intersect (bs : List (List Row)) (init : List JsonString)
    (hinit : init.Nodup) (hbs : ∀ b ∈ bs, b.Nodup) :
    (bs.foldl
      (fun accumulation current =>
        LocalDatabase._intersect accumulation (LocalDatabase._stringifyArrayElements current))
      init).Nodup := by
  induction bs generalizing init with
  | nil => exact hinit
  | cons b rest ih =>
    rw [List.foldl_cons]
    refine ih _ ?_ (fun c hc => hbs c (List.mem_cons_of_mem b hc))
    exact (nodup_stringify b (hbs b (List.mem_cons_self b rest))).filter _

theorem nodup_intersectAndStringify (bs : List (List Row)) (out : List JsonString)
    (h : intersectAndStringifyArrayOfArrays bs = .ok out) (hbs : ∀ b ∈ bs, b.Nodup) :
    out.Nodup := by
  cases bs with
  | nil => exact Except.noConfusion h
  | cons b rest =>
    unfold intersectAndStringifyArrayOfArrays at h
    injection h with h
    rw [← h]
    exact nodup_foldl_intersect rest _
      (nodup_stringify b (hbs b (List.mem_cons_self b rest)))
      (fun c hc => hbs c (List.mem_cons_of_mem b hc))

/-- C5 amended: the merger compares rows by serialized content but performs
no deduplication of its own; still, whenever the stored table contents are
duplicate-free (as primary-key uniqueness guarantees), every row list
`select` resolves with is duplicate-free, because each scan batch filters
the stored rows and the intersect/difference steps only filter further. -/
theorem C5_select_nodup (db : LocalDB) (table : String) (q : Query)
    (out : List Row)
    (hnd : (db.rows table).Nodup)
    (hsel : LocalDatabase.select db table q = .ok (some out)) :
    out.Nodup := by
  unfold LocalDatabase.select at hsel
  split at hsel
  · exact Except.noConfusion hsel
  split at hsel
  · exact Except.noConfusion hsel
  split at hsel
  · exact Except.noConfusion hsel
  unfold LocalDatabase.selectBody at hsel
  split at hsel
  · exact Except.noConfusion hsel
  split at hsel
  · exact Except.noConfusion hsel
  next tbl _ =>
  split at hsel
  · exact Except.noConfusion hsel
  next addBatches heqScan =>
  have hbatches : ∀ b ∈ addBatches, b.Nodup := by
    intro b hb
    rcases (scanAll_ok _ _ _ _ heqScan).2 ▸ hb with hb'
    rcases List.mem_map.mp hb' with ⟨a, -, rfl⟩
    exact hnd.filter _
  split at hsel
  · injection hsel with hsel
    cases addBatches with
    | nil => exact Option.noConfusion hsel
    | cons b bs =>
      injection hsel with hsel
      rw [← hsel]
      exact hbatches b (List.mem_cons_self b bs)
  split at hsel
  · exact Except.noConfusion hsel
  next SA heqSA =>
  have hSA : SA.Nodup := nodup_intersectAndStringify _ _ heqSA hbatches
  split at hsel
  · injection hsel with hsel
    injection hsel with hsel
    rw [← hsel]
    exact nodup_parse _ hSA
  split at hsel
  · exact Except.noConfusion hsel
  split at hsel
  · exact Except.noConfusion hsel
  injection hsel with hsel
  injection hsel with hsel
  rw [← hsel]
  exact nodup_parse _ (hSA.filter _)

/-- Witness for C5's amended claim: the John/69/not-Gilmore query on the
duplicate-free example rows yields a duplicate-free result. -/
theorem C5_select_nodup_witness :
    (exDB.rows "People").Nodup ∧
    ([[("id", Value.int 5), ("firstName", Value.str "John"),
       ("lastName", Value.str "Robson"), ("age", Value.int 69)]] : List Row).Nodup :=
  ⟨by decide,
    C5_select_nodup exDB "People"
      [("firstName", QueryEntry.prim (Value.str "John")),
       ("age", QueryEntry.prim (Value.int 69)),
       ("lastName", QueryEntry.ops ⟨none, none, none, none, some (Value.str "Gilmore")⟩)]
      _ (by decide) (by decide)⟩

/-! ### Helper lemmas for permutation invariance -/

theorem parseQuery_error_of (q : Query)
    (h : ¬ ∀ ce ∈ q, isOkB (parseEntry ce.1 ce.2) = true) :
    ∃ e, parseQuery q = .error e := by
  cases hp : parseQuery q with
  | error e => exact ⟨e, rfl⟩
  | ok P =>
    obtain ⟨A, S⟩ := P
    exact absurd (parseQuery_ok q A S hp) h

theorem scanAll_error_of_invalid (tbl : TableSchema) (rows : List Row)
    (l : List (String × AddTarget))
    (h : ¬ ∀ a ∈ l, colValid tbl a.1 = true) :
    ∃ e, scanAll tbl rows l = .error e := by
  cases hs : scanAll tbl rows l with
  | error e => exact ⟨e, rfl⟩
  | ok bs => exact absurd (scanAll_ok tbl rows l bs hs).1 h

theorem selectBody_parse_error (db : LocalDB) (table : String) (q : Query)
    (e : DBError) (hp : parseQuery q = .error e) :
    LocalDatabase.selectBody db table q = .error e := by
  unfold LocalDatabase.selectBody
  rw [hp]

theorem selectBody_scanAll_error (db : LocalDB) (table : String) (q : Query)
    (adds : List (String × AddTarget)) (subs : List (String × Value))
    (tbl : TableSchema) (e : DBError)
    (hp : parseQuery q = .ok (adds, subs))
    (htbl : db.schema.tableMap table = some tbl)
    (hscan : scanAll tbl (db.rows table) adds = .error e) :
    LocalDatabase.selectBody db table q = .error e := by
  unfold LocalDatabase.selectBody
  rw [hp]
  dsimp only
  rw [htbl]
  dsimp only
  rw [hscan]

theorem selectBody_shortcut (db : LocalDB) (table : String) (q : Query)
    (adds : List (String × AddTarget)) (tbl : TableSchema)
    (hp : parseQuery q = .ok (adds, []))
    (htbl : db.schema.tableMap table = some tbl)
    (ha : ∀ a ∈ adds, colValid tbl a.1 = true)
    (hlen : adds.length ≤ 1) :
    LocalDatabase.selectBody db table q =
      .ok ((adds.map (scanEval (db.rows table))).head?) := by
  unfold LocalDatabase.selectBody
  rw [hp]
  dsimp only
  rw [htbl]
  dsimp only
  rw [scanAll_eq tbl (db.rows table) adds ha]
  dsimp only
  rw [if_pos ⟨rfl, by simpa using hlen⟩]

theorem selectBody_no_inclusion (db : LocalDB) (table : String) (q : Query)
    (subs : List (String × Value)) (tbl : TableSchema)
    (hp : parseQuery q = .ok ([], subs))
    (htbl : db.schema.tableMap table = some tbl)
    (hsubs : subs ≠ []) :
    LocalDatabase.selectBody db table q = .error .mergeTypeError := by
  unfold LocalDatabase.selectBody
  rw [hp]
  dsimp only
  rw [htbl]
  dsimp only
  rw [show scanAll tbl (db.rows table) ([] : List (String × AddTarget)) = .ok [] from rfl]
  dsimp only
  rw [if_neg (fun hcontra => hsubs (List.length_eq_zero.mp hcontra.1))]
  rfl

theorem selectBody_sub_scan_error (db : LocalDB) (table : String) (q : Query)
    (a0 : String × AddTarget) (adds' : List (String × AddTarget))
    (subs : List (String × Value)) (tbl : TableSchema) (e : DBError)
    (hp : parseQuery q = .ok (a0 :: adds', subs))
    (htbl : db.schema.tableMap table = some tbl)
    (ha : ∀ a ∈ a0 :: adds', colValid tbl a.1 = true)
    (hsubs : subs ≠ [])
    (hsubscan : scanAll tbl (db.rows table)
        (subs.map (fun s => (s.1, AddTarget.exact s.2))) = .error e) :
    LocalDatabase.selectBody db table q = .error e := by
  unfold LocalDatabase.selectBody
  rw [hp]
  dsimp only
  rw [htbl]
  dsimp only
  rw [scanAll_eq tbl (db.rows table) _ ha]
  dsimp only
  rw [if_neg (fun hcontra => hsubs (List.length_eq_zero.mp hcontra.1))]
  rw [List.map_cons]
  obtain ⟨SA, hSA, -⟩ :=
    intersectAndStringify_cons (scanEval (db.rows table) a0)
      (adds'.map (scanEval (db.rows table)))
  rw [hSA]
  dsimp only
  rw [if_neg (fun hcontra => hsubs (List.length_eq_zero.mp hcontra))]
  rw [hsubscan]

theorem perm_eq_of_short {α : Type} (l l' : List α) (h : l.Perm l')
    (hlen : l.length ≤ 1) : l = l' := by
  cases l with
  | nil => exact (h.symm.eq_nil).symm
  | cons a rest =>
    cases rest with
    | nil => exact (List.singleton_perm.mp h)
    | cons b r2 => simp at hlen

/-- C8: the rows `select` yields do not depend on the iteration order of the
predicate mapping — for every permutation of the field entries, the two
invocations yield the same rows (as sets of row contents; failed or
row-less invocations yield no rows on both sides alike). -/
theorem C8_perm_invariant (db : LocalDB) (table : String) (q q' : Query)
    (hperm : q.Perm q') :
    ∀ r : Row, r ∈ resultRows (LocalDatabase.select db table q) ↔
      r ∈ resultRows (LocalDatabase.select db table q') := by
  intro r
  cases hinitb : db.initialized with
  | false =>
    simp [LocalDatabase.select, hinitb, resultRows]
  | true =>
  by_cases ht : table = ""
  · simp [LocalDatabase.select, hinitb, ht, resultRows]
  cases hcb : db.schema.tableNames.contains table with
  | false =>
    have hnm : table ∉ db.schema.tableNames := by simpa using hcb
    simp [LocalDatabase.select, hinitb, ht, hnm, resultRows]
  | true =>
  obtain ⟨tbl, htbl⟩ := tableMap_isSome db.schema table hcb
  have hbody := select_eq_body db table q hinitb ht hcb
  have hbody' := select_eq_body db table q' hinitb ht hcb
  by_cases hallok : ∀ ce ∈ q, isOkB (parseEntry ce.1 ce.2) = true
  case neg =>
    obtain ⟨e, hperr⟩ := parseQuery_error_of q hallok
    obtain ⟨e', hperr'⟩ := parseQuery_error_of q'
      (fun hall => hallok (fun ce hce => hall ce (hperm.mem_iff.mp hce)))
    rw [hbody.trans (selectBody_parse_error db table q e hperr),
      hbody'.trans (selectBody_parse_error db table q' e' hperr')]
    simp [resultRows]
  case pos =>
  have hallok' : ∀ ce ∈ q', isOkB (parseEntry ce.1 ce.2) = true :=
    fun ce hce => hallok ce (hperm.mem_iff.mpr hce)
  have hp := parseQuery_eq q hallok
  have hp' := parseQuery_eq q' hallok'
  have hpa : (q.filterMap entryAdd).Perm (q'.filterMap entryAdd) := hperm.filterMap _
  have hps : (q.filterMap entrySub).Perm (q'.filterMap entrySub) := hperm.filterMap _
  by_cases hva : ∀ a ∈ q.filterMap entryAdd, colValid tbl a.1 = true
  case neg =>
    obtain ⟨e, hserr⟩ := scanAll_error_of_invalid tbl (db.rows table) _ hva
    obtain ⟨e', hserr'⟩ := scanAll_error_of_invalid tbl (db.rows table) (q'.filterMap entryAdd)
      (fun hall => hva (fun a ha => hall a (hpa.mem_iff.mp ha)))
    rw [hbody.trans (selectBody_scanAll_error db table q _ _ tbl e hp htbl hserr),
      hbody'.trans (selectBody_scanAll_error db table q' _ _ tbl e' hp' htbl hserr')]
    simp [resultRows]
  case pos =>
  have hva' : ∀ a ∈ q'.filterMap entryAdd, colValid tbl a.1 = true :=
    fun a ha => hva a (hpa.mem_iff.mpr ha)
  by_cases hcut : (q.filterMap entrySub).length = 0 ∧ (q.filterMap entryAdd).length ≤ 1
  case pos =>
    have hsubnil : q.filterMap entrySub = [] := List.length_eq_zero.mp hcut.1
    have hsubnil' : q'.filterMap entrySub = [] :=
      List.length_eq_zero.mp (by rw [← hps.length_eq]; exact hcut.1)
    have haddeq : q.filterMap entryAdd = q'.filterMap entryAdd :=
      perm_eq_of_short _ _ hpa hcut.2
    rw [hbody.trans (selectBody_shortcut db table q _ tbl (hsubnil ▸ hp) htbl hva hcut.2),
      hbody'.trans (selectBody_shortcut db table q' _ tbl (hsubnil' ▸ hp') htbl hva'
        (haddeq ▸ hcut.2))]
    rw [haddeq]
  case neg =>
  by_cases hadds : q.filterMap entryAdd = []
  · have hadds' : q'.filterMap entryAdd = [] := ((hadds ▸ hpa).symm).eq_nil
    have hsubne : q.filterMap entrySub ≠ [] := by
      intro hn
      exact hcut ⟨by simp [hn], by simp [hadds]⟩
    have hsubne' : q'.filterMap entrySub ≠ [] :=
      fun hn => hsubne ((hn ▸ hps).eq_nil)
    rw [hbody.trans (selectBody_no_inclusion db table q _ tbl (hadds ▸ hp) htbl hsubne),
      hbody'.trans (selectBody_no_inclusion db table q' _ tbl (hadds' ▸ hp') htbl hsubne')]
  · have hadds' : q'.filterMap entryAdd ≠ [] := fun hn => hadds ((hn ▸ hpa).eq_nil)
    by_cases hvs : ∀ s ∈ q.filterMap entrySub, colValid tbl s.1 = true
    case pos =>
      have hvs' : ∀ s ∈ q'.filterMap entrySub, colValid tbl s.1 = true :=
        fun s hs => hvs s (hps.mem_iff.mpr hs)
      obtain ⟨out, hsel, hmem⟩ :=
        select_mem db table q tbl _ _ hinitb ht hcb htbl hp hva hvs hadds
      obtain ⟨out', hsel', hmem'⟩ :=
        select_mem db table q' tbl _ _ hinitb ht hcb htbl hp' hva' hvs' hadds'
      rw [hsel, hsel']
      show r ∈ out ↔ r ∈ out'
      rw [hmem r, hmem' r]
      constructor
      · rintro ⟨hr, hm, hnot⟩
        refine ⟨hr, fun a ha => hm a (hpa.mem_iff.mpr ha), fun hcontra => hnot ⟨?_, ?_⟩⟩
        · intro hn
          exact hcontra.1 ((hn ▸ hps).symm).eq_nil
        · exact fun s hs => hcontra.2 s (hps.mem_iff.mp hs)
      · rintro ⟨hr, hm, hnot⟩
        refine ⟨hr, fun a ha => hm a (hpa.mem_iff.mp ha), fun hcontra => hnot ⟨?_, ?_⟩⟩
        · intro hn
          exact hcontra.1 ((hn ▸ hps).eq_nil)
        · exact fun s hs => hcontra.2 s (hps.mem_iff.mpr hs)
    case neg =>
      have hsubne : q.filterMap entrySub ≠ [] := by
        rintro hn
        exact hvs (by rw [hn]; simp)
      have hsubne' : q'.filterMap entrySub ≠ [] :=
        fun hn => hsubne ((hn ▸ hps).eq_nil)
      have hvsm : ¬ ∀ a ∈ (q.filterMap entrySub).map (fun s => (s.1, AddTarget.exact s.2)),
          colValid tbl a.1 = true :=
        fun hall => hvs (fun s hs => hall _ (List.mem_map.mpr ⟨s, hs, rfl⟩))
      have hvsm' : ¬ ∀ a ∈ (q'.filterMap entrySub).map (fun s => (s.1, AddTarget.exact s.2)),
          colValid tbl a.1 = true :=
        fun hall => hvsm (fun a ha => by
          rcases List.mem_map.mp ha with ⟨s, hs, rfl⟩
          exact hall _ (List.mem_map.mpr ⟨s, hps.mem_iff.mp hs, rfl⟩))
      obtain ⟨e, hserr⟩ := scanAll_error_of_invalid tbl (db.rows table) _ hvsm
      obtain ⟨e', hserr'⟩ := scanAll_error_of_invalid tbl (db.rows table) _ hvsm'
      rcases List.exists_cons_of_ne_nil hadds with ⟨a0, rest, hq⟩
      rcases List.exists_cons_of_ne_nil hadds' with ⟨a0', rest', hq'⟩
      rw [hbody.trans (selectBody_sub_scan_error db table q a0 rest _ tbl e (hq ▸ hp) htbl
          (hq ▸ hva) hsubne hserr),
        hbody'.trans (selectBody_sub_scan_error db table q' a0' rest' _ tbl e' (hq' ▸ hp') htbl
          (hq' ▸ hva') hsubne' hserr')]
      simp [resultRows]

/-- Witness for C8: swapping the two fields of the John/69 query yields the
same rows. -/
theorem C8_perm_invariant_witness :
    ([("firstName", QueryEntry.prim (Value.str "John")),
      ("age", QueryEntry.prim (Value.int 69))] : Query).Perm
      [("age", QueryEntry.prim (Value.int 69)),
       ("firstName", QueryEntry.prim (Value.str "John"))] ∧
    (∀ r : Row,
      r ∈ resultRows (LocalDatabase.select exDB "People"
        [("firstName", QueryEntry.prim (Value.str "John")),
         ("age", QueryEntry.prim (Value.int 69))]) ↔
      r ∈ resultRows (LocalDatabase.select exDB "People"
        [("age", QueryEntry.prim (Value.int 69)),
         ("firstName", QueryEntry.prim (Value.str "John"))])) :=
  ⟨by decide,
    C8_perm_invariant exDB "People"
      [("firstName", QueryEntry.prim (Value.str "John")),
       ("age", QueryEntry.prim (Value.int 69))]
      [("age", QueryEntry.prim (Value.int 69)),
       ("firstName", QueryEntry.prim (Value.str "John"))]
      (by decide)⟩
